import Mathlib

/-
Verification of the PygameCommunityBot command layer around the sandbox
execution facility. Python strings are modelled as `List Char`; Python
floats appearing as time stamps, durations and percentages are modelled
as rationals; fallible Python calls return an `Option`/sum-with-`raised`
value. Every definition is a direct translation of the function it names
in src/commands.py, src/pgbot/utils.py or src/pgbot/util.py.
-/

namespace PgBot

/-! ## Definitions: backtick-fence handling -/

/-- Length of the leading run of backtick characters. -/
def leadTicks : List Char → Nat
  | [] => 0
  | c :: rest => if c = '`' then leadTicks rest + 1 else 0

/-- Whether a character list contains "```" as a contiguous substring
(three consecutive backticks). -/
def hasTriple : List Char → Bool
  | [] => false
  | c :: rest => (decide (c = '`') && decide (2 ≤ leadTicks rest)) || hasTriple rest

/-- Python `s.replace("```", repl)`: scans left to right, replacing
non-overlapping occurrences. -/
def repl3 (repl : List Char) : List Char → List Char
  | '`' :: '`' :: '`' :: rest => repl ++ repl3 repl rest
  | c :: rest => c :: repl3 repl rest
  | [] => []

/-- The replacement string of `str(returned.text).replace("```", ...)` at
src/commands.py line 171: backticks isolated by U+200E left-to-right
marks (11 characters). -/
def replText : List Char :=
  ['‎', '‎', '`', '‎', '`', '‎', '‎', '`',
   '‎', '‎', '‎']

/-- The replacement string used for the exception kind name and the
joined argument values at src/commands.py line 181 (8 characters). -/
def replExc : List Char :=
  ['‎', '‎', '`', '‎', '`', '‎', '`', '‎']

/-- Sanitization applied to the result text (src/commands.py line 171). -/
def sanitizeText (s : List Char) : List Char := repl3 replText s

/-- Sanitization applied to exception content (src/commands.py line 181). -/
def sanitizeExc (s : List Char) : List Char := repl3 replExc s

/-! ## Definitions: source normalization before execution -/

/-- Characters the exec command strips as display-formatting wrapper:
`code[x] in [' ', '`', '\n']` (src/commands.py lines 143 and 151). -/
def isStripChar (c : Char) : Bool := c = ' ' || c = '`' || c = '\n'

/-- The leading loop of src/commands.py lines 141-147: `ret` starts as
the empty string; at each leading wrapper character `ret` becomes the
remainder of `code` after it; the loop breaks at the first non-wrapper
character (leaving `ret` empty when the very first character is not a
wrapper character). -/
def scanLead (ret : List Char) : List Char → List Char
  | [] => ret
  | c :: rest => if isStripChar c then scanLead rest rest else ret

/-- The trailing loop of src/commands.py lines 150-154, which walks
`code` from the right; at reversed position `c :: restRev` the original
index is `restRev.length`, and `ret = code[:x]` is
`code.take restRev.length`. -/
def scanTrail (code : List Char) : List Char → List Char → List Char
  | ret, [] => ret
  | ret, c :: restRev =>
      if isStripChar c then scanTrail code (code.take restRev.length) restRev
      else ret

/-- `if ret.startswith("py\n"): ret = ret[3:]` (src/commands.py 156-157). -/
def pyStripTag (ret : List Char) : List Char :=
  if ret.take 3 = ['p', 'y', '\n'] then ret.drop 3 else ret

/-- The whole normalization the exec command applies to the submitted
source (after the prefix slice) before calling the sandbox
(src/commands.py lines 140-157). -/
def normalize (code : List Char) : List Char :=
  let code1 := scanLead [] code
  pyStripTag (scanTrail code1 code1 code1.reverse)

def normalizeSource (s : String) : String := String.mk (normalize s.data)

/-! ## Definitions: the exec branch of user_command -/

/-- Captured failure: the error-kind name (`type(exc).__name__`) and the
string forms of the exception arguments (`str(t) for t in exc.args`). -/
structure ExcInfo where
  kindName : List Char
  args : List (List Char)

/-- A produced drawable artifact; `pngSize` is the byte size of the PNG
file `pygame.image.save` writes for it (what `os.path.getsize` sees). -/
structure ImageArtifact where
  pngSize : Nat

/-- The result record `execSandbox` returns, as consumed by
src/commands.py lines 160-186: `exc` is `none` exactly when
`not isinstance(returned.exc, BaseException)` holds, `img` is `some`
exactly when `type(returned.img) is pygame.Surface` holds. -/
structure SandboxResult where
  duration : ℚ
  text : List Char
  img : Option ImageArtifact
  exc : Option ExcInfo

/-- One message handed to the channel: a file upload or an embed. -/
inductive Sent where
  | file (path : List Char)
  | embed (title : List Char) (desc : List Char)
deriving DecidableEq

/-- Observable effects of one run of the exec branch: the messages sent,
whether the temporary image file was saved and removed, and whether an
exception escaped the handler. -/
structure ExecEffects where
  sent : List Sent
  fileSaved : Bool
  fileRemoved : Bool
  raised : Bool
deriving DecidableEq

/-- The temporary artifact path `f"temp{start}.png"` built from the
wall-clock stamp taken before the sandbox call (src/commands.py 159,
165). -/
def tempName (start : ℚ) : List Char :=
  "temp".data ++ (toString start).data ++ ".png".data

/-- The embed body built at src/commands.py lines 174-178 (the identical
code appears at lines 183-186 for the exception case): a code fence
around the content, truncated to its first 2038 characters plus a
" ..." marker when the content plus the 7 fence-frame characters would
exceed 2048. -/
def embedBlock (s : List Char) : List Char :=
  if 2048 < s.length + 7 then "```\n".data ++ s.take 2038 ++ " ...```".data
  else "```\n".data ++ s ++ "```".data

/-- src/commands.py line 181: the exception line
`type(exc).__name__.replace(...) + ": " + ", ".join(str(t) for t in
exc.args).replace(...)`. -/
def renderExcLine (e : ExcInfo) : List Char :=
  sanitizeExc e.kindName ++ ": ".data ++
    sanitizeExc (List.intercalate ", ".data e.args)

/-- Title of the returned-text embed (src/commands.py 175, 177);
`formatTime`'s decimal rendering of the duration is abstracted as
`toString`, which no claim depends on. -/
def execTitle (duration : ℚ) : List Char :=
  "Returned text (code executed in ".data ++ (toString duration).data ++
    "):".data

/-- The exec branch of `user_command` after the sandbox returned
(src/commands.py lines 163-186). `sendOk` models whether the
`msg.channel.send(file=discord.File(...))` call succeeds; the code has
no try/finally, so when that call raises, the handler propagates before
`os.remove` runs and nothing further is sent. -/
def userCommandExec (returned : SandboxResult) (start : ℚ) (sendOk : Bool) :
    ExecEffects :=
  match returned.exc with
  | none =>
      let imgPart : List Sent × Bool × Bool × Bool :=
        match returned.img with
        | some img =>
            if img.pngSize < 2 ^ 22 then
              if sendOk then ([.file (tempName start)], true, true, false)
              else ([], true, false, true)
            else
              ([.embed "Image cannot be sent".data
                  "The image file size is >4MiB".data], true, true, false)
        | none => ([], false, false, false)
      if imgPart.2.2.2 then
        { sent := imgPart.1, fileSaved := imgPart.2.1,
          fileRemoved := imgPart.2.2.1, raised := true }
      else
        let str0 := sanitizeText returned.text
        let str_repr := if str0 = [] then [' '] else str0
        { sent := imgPart.1 ++
            [.embed (execTitle returned.duration) (embedBlock str_repr)],
          fileSaved := imgPart.2.1, fileRemoved := imgPart.2.2.1,
          raised := false }
  | some e =>
      { sent := [.embed "An exception occured!".data
          (embedBlock (renderExcLine e))],
        fileSaved := false, fileRemoved := false, raised := false }

/-- Is this message the exception embed? -/
def isExcEmbed : Sent → Bool
  | .embed t _ => t = "An exception occured!".data
  | .file _ => false

/-- Is this message a file upload? -/
def isFileUpload : Sent → Bool
  | .file _ => true
  | .embed _ _ => false

/-- Is this message the artifact-too-large embed? -/
def isTooLargeEmbed : Sent → Bool
  | .embed t _ => t = "Image cannot be sent".data
  | .file _ => false

/-- Concrete input for the size-ceiling boundary: a successful run whose
artifact renders to exactly 2^22 bytes. -/
def resultAt4MiB : SandboxResult :=
  { duration := 0, text := [], img := some ⟨2 ^ 22⟩, exc := none }

/-- Concrete input for the cleanup question: a successful run with a
small artifact. -/
def resultSmallImg : SandboxResult :=
  { duration := 0, text := [], img := some ⟨100⟩, exc := none }

/-! ## Definitions: utility functions from src/pgbot -/

/-- The loop of `split_long_message` (src/pgbot/utils.py lines 143-161;
the same function appears verbatim in src/pgbot/util.py lines 44-62):
`temp[:-1]` is `dropLast`, and `if temp:` is the non-emptiness test. -/
def split_long_loop (lines : List (List Char))
    (split_output : List (List Char)) (temp : List Char) :
    List (List Char) :=
  match lines with
  | [] => if temp ≠ [] then split_output ++ [temp] else split_output
  | line :: rest =>
      if 2000 < temp.length + line.length + 1 then
        split_long_loop rest (split_output ++ [temp.dropLast]) (line ++ ['\n'])
      else
        split_long_loop rest split_output (temp ++ line ++ ['\n'])

/-- `split_long_message(message)`: Python `message.split("\n")` is
`List.splitOn '\n'`. -/
def split_long_message (message : List Char) : List (List Char) :=
  split_long_loop (message.splitOn '\n') [] []

/-- progress_bar from src/pgbot/utils.py lines 62-69. Python string
repetition `s * n` is `(List.replicate n s).flatten`; `int(divisions *
pct)` truncates toward zero and the clamped `pct` is non-negative, so it
is the floor; floats are modelled as rationals. -/
def progress_bar (pct : ℚ) (full_bar : List Char := ['█'])
    (empty_bar : List Char := ['░']) (divisions : ℕ := 10) : List Char :=
  let p := if pct < 0 then 0 else if 1 < pct then 1 else pct
  (List.replicate (Int.toNat ⌊(divisions : ℚ) * p⌋) full_bar).flatten ++
    (List.replicate (divisions - Int.toNat ⌊(divisions : ℚ) * p⌋)
      empty_bar).flatten

/-- The value of a non-empty all-digit character list, else `none`. -/
def digitsVal (l : List Char) : Option Nat :=
  if l ≠ [] ∧ l.all Char.isDigit then
    some (l.foldl (fun a c => a * 10 + (c.toNat - '0'.toNat)) 0)
  else none

/-- Python `int(str)` restricted to an optional sign followed by decimal
digits (whitespace and underscore forms are not exercised by any call
modelled here); `none` models a ValueError. -/
def pyIntOfString (s : List Char) : Option Int :=
  match s with
  | '-' :: rest => (digitsVal rest).map (fun n => -(n : Int))
  | '+' :: rest => (digitsVal rest).map (fun n => (n : Int))
  | _ => (digitsVal s).map (fun n => (n : Int))

/-- Outcome of a Python call: a returned value, or an uncaught
exception. -/
inductive PyResult (A : Type) where
  | ok (v : A)
  | raised
deriving DecidableEq

/-- filter_emoji_id from src/pgbot/utils.py lines 194-215. The first
branch's `int(...)` call is outside the try/except, so a failing parse
there is an uncaught ValueError (`.raised`); only the second `int(name)`
call is guarded, falling back to returning the input string. -/
def filter_emoji_id (name : List Char) : PyResult (Int ⊕ List Char) :=
  if 2 ≤ name.count ':' then
    match pyIntOfString (((name.splitOn ':').getLastD []).dropLast) with
    | some i => .ok (.inl i)
    | none => .raised
  else
    match pyIntOfString name with
    | some i => .ok (.inl i)
    | none => .ok (.inr name)

/-- code_block from src/pgbot/utils.py lines 405-415: the later utility
that formats text into a code block, budgeting the 7 frame characters
and a further 7 for the " ..." marker before truncating. -/
def code_block (s : List Char) (max_characters : Nat := 2048) : List Char :=
  let s1 := repl3 ['​', '`', '​', '`', '​', '`', '​'] s
  let m := max_characters - 7
  if m < s1.length then "```\n".data ++ s1.take (m - 7) ++ " ...```".data
  else "```\n".data ++ s1.take m ++ "```".data

end PgBot

namespace PgBot

/-! ## Helper lemmas: the fence replacement never leaves "```" -/

lemma leadTicks_cons (c : Char) (l : List Char) :
    leadTicks (c :: l) = if c = '`' then leadTicks l + 1 else 0 := rfl

lemma hasTriple_cons (c : Char) (l : List Char) :
    hasTriple (c :: l) =
      ((decide (c = '`') && decide (2 ≤ leadTicks l)) || hasTriple l) := rfl

lemma leadTicks_append_of_zero (a b : List Char) (hb : leadTicks b = 0) :
    leadTicks (a ++ b) = leadTicks a := by
  induction a with
  | nil => simpa using hb
  | cons c a ih => simp [leadTicks_cons, ih]

lemma leadTicks_lt_of_last (a : List Char)
    (ha : a ≠ []) (hlast : ∀ c, a.getLast? = some c → c ≠ '`') :
    leadTicks a < a.length := by
  induction a with
  | nil => exact absurd rfl ha
  | cons c a ih =>
      cases a with
      | nil =>
          have hc : c ≠ '`' := hlast c rfl
          simp [leadTicks_cons, hc]
      | cons d a' =>
          have hlast' : ∀ e, (d :: a').getLast? = some e → e ≠ '`' := by
            intro e he
            exact hlast e (by rw [List.getLast?_cons_cons]; exact he)
          have h' := ih (by simp) hlast'
          by_cases hc : c = '`'
          · rw [leadTicks_cons, if_pos hc]
            simp only [List.length_cons] at h' ⊢
            omega
          · rw [leadTicks_cons, if_neg hc]
            simp

lemma leadTicks_append_of_lt (a b : List Char) (h : leadTicks a < a.length) :
    leadTicks (a ++ b) = leadTicks a := by
  induction a with
  | nil => simp [leadTicks] at h
  | cons c a ih =>
      by_cases hc : c = '`'
      · rw [leadTicks_cons, if_pos hc] at h
        simp only [List.length_cons] at h
        rw [List.cons_append, leadTicks_cons, if_pos hc, leadTicks_cons,
          if_pos hc, ih (by omega)]
      · simp [leadTicks_cons, hc]

/-- No "```" forms across `a ++ b` when the last character of `a` is not
a backtick: an occurrence lies wholly in `a` or wholly in `b`. -/
lemma hasTriple_append_left (a b : List Char)
    (hlast : ∀ c, a.getLast? = some c → c ≠ '`') :
    hasTriple (a ++ b) = (hasTriple a || hasTriple b) := by
  induction a with
  | nil => simp [hasTriple]
  | cons c a ih =>
      cases a with
      | nil =>
          have hc : c ≠ '`' := hlast c rfl
          simp [hasTriple_cons, hc, hasTriple]
      | cons d a' =>
          have hlast' : ∀ e, (d :: a').getLast? = some e → e ≠ '`' := by
            intro e he
            exact hlast e (by rw [List.getLast?_cons_cons]; exact he)
          have hlt : leadTicks (d :: a') < (d :: a').length :=
            leadTicks_lt_of_last _ (by simp) hlast'
          have hlead : leadTicks (d :: (a' ++ b)) = leadTicks (d :: a') := by
            have h1 := leadTicks_append_of_lt (d :: a') b hlt
            simpa using h1
          have hih : hasTriple (d :: (a' ++ b)) =
              (hasTriple (d :: a') || hasTriple b) := by
            have h1 := ih hlast'
            simpa using h1
          simp only [List.cons_append]
          rw [hasTriple_cons c (d :: (a' ++ b)), hih, hlead,
            hasTriple_cons c (d :: a')]
          cases hasTriple (d :: a') <;> cases hasTriple b <;> simp

/-- Same, when the first character of `b` is not a backtick. -/
lemma hasTriple_append_right (a b : List Char) (hb : leadTicks b = 0) :
    hasTriple (a ++ b) = (hasTriple a || hasTriple b) := by
  induction a with
  | nil => simp [hasTriple]
  | cons c a ih =>
      rw [List.cons_append, hasTriple_cons c (a ++ b), ih,
        leadTicks_append_of_zero a b hb, hasTriple_cons c a]
      cases hasTriple a <;> cases hasTriple b <;> simp

lemma leadTicks_le_one_of_not_two (rest : List Char)
    (h : ∀ r, rest = '`' :: '`' :: r → False) : leadTicks rest ≤ 1 := by
  cases rest with
  | nil => simp [leadTicks]
  | cons d rest' =>
      cases rest' with
      | nil => by_cases hd : d = '`' <;> simp [leadTicks_cons, leadTicks, hd]
      | cons e rest'' =>
          by_cases hd : d = '`'
          · by_cases he : e = '`'
            · exact absurd (by rw [hd, he]) (h rest'')
            · simp [leadTicks_cons, hd, he]
          · simp [leadTicks_cons, hd]

/-- Core invariant of the fence replacement: when the replacement string
contains no "```", does not start with a backtick and does not end with
one, the output never contains "```", and its leading backtick run is no
longer than the input's, capped at two. -/
lemma repl3_spec (repl : List Char) (hno : hasTriple repl = false)
    (hlead : leadTicks repl = 0)
    (hlast : ∀ c, repl.getLast? = some c → c ≠ '`') (l : List Char) :
    hasTriple (repl3 repl l) = false ∧
      leadTicks (repl3 repl l) ≤ min (leadTicks l) 2 := by
  induction l using repl3.induct repl with
  | case1 rest ih =>
      rw [repl3]
      constructor
      · rw [hasTriple_append_left _ _ hlast, hno, ih.1]
        rfl
      · have h2 : leadTicks (repl ++ repl3 repl rest) ≤ 2 := by
          cases repl with
          | nil =>
              simpa using le_trans ih.2 (min_le_right _ _)
          | cons rc rrest =>
              have hrc : rc ≠ '`' := by
                by_contra hh
                simp [leadTicks_cons, hh] at hlead
              simp [leadTicks_cons, hrc]
        have h3 : leadTicks ('`' :: '`' :: '`' :: rest) = leadTicks rest + 3 := by
          simp [leadTicks_cons]
        omega
  | case2 c rest h ih =>
      have hstep : repl3 repl (c :: rest) = c :: repl3 repl rest := by
        rw [repl3]
        exact h
      rw [hstep]
      by_cases hc : c = '`'
      · have hr1 : leadTicks rest ≤ 1 :=
          leadTicks_le_one_of_not_two rest (by intro r hr; exact h r hc hr)
        have ht1 : leadTicks (repl3 repl rest) ≤ 1 := by
          have h4 := ih.2
          omega
        constructor
        · rw [hasTriple_cons, ih.1]
          have h5 : ¬ (2 ≤ leadTicks (repl3 repl rest)) := by omega
          simp [h5]
        · have h4 := ih.2
          rw [leadTicks_cons, if_pos hc, leadTicks_cons, if_pos hc]
          omega
      · constructor
        · rw [hasTriple_cons, ih.1]
          simp [hc]
        · simp [leadTicks_cons, hc]
  | case3 =>
      refine ⟨rfl, ?_⟩
      simp [repl3, leadTicks]

lemma two_le_leadTicks_iff (l : List Char) :
    2 ≤ leadTicks l ↔ ['`', '`'] <+: l := by
  cases l with
  | nil => simp [leadTicks]
  | cons d l' =>
      cases l' with
      | nil =>
          by_cases hd : d = '`' <;>
            simp [leadTicks_cons, leadTicks, hd, List.cons_prefix_cons]
      | cons e l'' =>
          by_cases hd : d = '`'
          · by_cases he : e = '`'
            · subst hd; subst he
              refine iff_of_true ?_ ?_
              · rw [leadTicks_cons, if_pos rfl, leadTicks_cons, if_pos rfl]
                omega
              · simp [List.cons_prefix_cons]
            · refine iff_of_false ?_ ?_
              · rw [leadTicks_cons, if_pos hd, leadTicks_cons, if_neg he]
                omega
              · simp only [List.cons_prefix_cons]
                exact fun hcontra => absurd hcontra.2.1.symm he
          · refine iff_of_false ?_ ?_
            · rw [leadTicks_cons, if_neg hd]
              omega
            · simp only [List.cons_prefix_cons]
              exact fun hcontra => absurd hcontra.1.symm hd

/-- `hasTriple` is exactly the "contains ``` as a contiguous substring"
predicate. -/
lemma hasTriple_iff_infix (l : List Char) :
    hasTriple l = true ↔ ['`', '`', '`'] <:+: l := by
  induction l with
  | nil => simp [hasTriple]
  | cons c rest ih =>
      rw [hasTriple_cons, List.infix_cons_iff]
      simp only [Bool.or_eq_true, Bool.and_eq_true, decide_eq_true_eq, ih,
        List.cons_prefix_cons, two_le_leadTicks_iff]
      tauto

lemma replText_ok : hasTriple replText = false ∧ leadTicks replText = 0 ∧
    ∀ c, replText.getLast? = some c → c ≠ '`' := by
  refine ⟨by decide, by decide, ?_⟩
  intro c hc
  rw [show replText.getLast? = some '‎' from by decide] at hc
  intro h
  rw [h] at hc
  exact absurd hc (by decide)

lemma replExc_ok : hasTriple replExc = false ∧ leadTicks replExc = 0 ∧
    ∀ c, replExc.getLast? = some c → c ≠ '`' := by
  refine ⟨by decide, by decide, ?_⟩
  intro c hc
  rw [show replExc.getLast? = some '‎' from by decide] at hc
  intro h
  rw [h] at hc
  exact absurd hc (by decide)

lemma sanitizeText_noTriple (s : List Char) :
    ¬ ['`', '`', '`'] <:+: sanitizeText s := by
  rw [← hasTriple_iff_infix]
  simp only [sanitizeText]
  rw [(repl3_spec replText replText_ok.1 replText_ok.2.1 replText_ok.2.2 s).1]
  simp

lemma sanitizeExc_noTriple (s : List Char) :
    ¬ ['`', '`', '`'] <:+: sanitizeExc s := by
  rw [← hasTriple_iff_infix]
  simp only [sanitizeExc]
  rw [(repl3_spec replExc replExc_ok.1 replExc_ok.2.1 replExc_ok.2.2 s).1]
  simp

end PgBot

namespace PgBot

/-! ## Helper lemmas: closed forms of the normalization loops -/

lemma scanLead_of_strip (w : List Char) (hb : Char) (tb : List Char)
    (hw : ∀ c ∈ w, isStripChar c = true) (hwne : w ≠ [])
    (hhb : isStripChar hb = false) :
    scanLead [] (w ++ hb :: tb) = hb :: tb := by
  have gen : ∀ (w' : List Char) (r0 : List Char),
      (∀ c ∈ w', isStripChar c = true) →
      scanLead r0 (w' ++ hb :: tb) = if w' = [] then r0 else hb :: tb := by
    intro w'
    induction w' with
    | nil =>
        intro r0 _
        simp [scanLead, hhb]
    | cons c w'' ih =>
        intro r0 hw'
        have hc : isStripChar c = true := hw' c (by simp)
        rw [List.cons_append, scanLead, if_pos hc,
          ih _ (fun d hd => hw' d (by simp [hd]))]
        cases w'' with
        | nil => simp
        | cons e w''' => simp
  rw [gen w [] hw]
  simp [hwne]

lemma scanTrail_spec (code : List Char) (revl : List Char) :
    scanTrail code (code.take revl.length) revl =
      code.take ((revl.dropWhile isStripChar).length) := by
  induction revl with
  | nil => simp [scanTrail]
  | cons c rest ih =>
      by_cases hc : isStripChar c = true
      · rw [scanTrail, if_pos hc, ih, List.dropWhile_cons_of_pos hc]
      · rw [scanTrail, if_neg hc,
          List.dropWhile_cons_of_neg (by simpa using hc)]

lemma dropWhile_eq_drop_len (p : Char → Bool) (l : List Char) :
    l.dropWhile p = l.drop (l.takeWhile p).length := by
  induction l with
  | nil => rfl
  | cons c rest ih =>
      by_cases hc : p c = true
      · rw [List.dropWhile_cons_of_pos hc, List.takeWhile_cons_of_pos hc,
          List.length_cons, List.drop_succ_cons, ih]
      · rw [List.dropWhile_cons_of_neg (by simpa using hc),
          List.takeWhile_cons_of_neg (by simpa using hc)]
        rfl

/-- Closed form of the trailing loop: it removes the maximal trailing
run of wrapper characters. -/
lemma scanTrail_closed (code : List Char) :
    scanTrail code code code.reverse =
      (code.reverse.dropWhile isStripChar).reverse := by
  have h1 := scanTrail_spec code code.reverse
  rw [List.length_reverse, List.take_length] at h1
  rw [h1]
  rw [dropWhile_eq_drop_len isStripChar code.reverse]
  rw [List.drop_reverse]
  simp [List.length_take, Nat.min_eq_left, Nat.sub_le]

/-! ## Helper lemmas: embed titles never collide -/

/-- The returned-text embed title starts with an uppercase R, so it never
coincides with a title starting with any other character. -/
lemma execTitle_ne_head (d : ℚ) (c : Char) (l : List Char) (hc : c ≠ 'R') :
    execTitle d ≠ c :: l := by
  intro h
  have h1 : (execTitle d).head? = some 'R' := rfl
  rw [h] at h1
  simp at h1
  exact hc h1

lemma execTitle_ne (d : ℚ) (l : List Char) : execTitle d ≠ 'A' :: l :=
  execTitle_ne_head d 'A' l (by decide)

lemma execTitle_ne_I (d : ℚ) (l : List Char) : execTitle d ≠ 'I' :: l :=
  execTitle_ne_head d 'I' l (by decide)

/-! ## Helper lemmas: split_long_message and progress_bar -/

lemma split_long_loop_bounded (lines : List (List Char)) :
    ∀ (split_output : List (List Char)) (temp : List Char),
      (∀ l ∈ lines, l.length ≤ 1999) →
      (∀ c ∈ split_output, c.length ≤ 2000) →
      temp.length ≤ 2000 →
      ∀ c ∈ split_long_loop lines split_output temp, c.length ≤ 2000 := by
  induction lines with
  | nil =>
      intro out temp _ hout htemp c hc
      rw [split_long_loop] at hc
      by_cases h0 : temp = []
      · rw [if_neg (by simp [h0])] at hc
        exact hout c hc
      · rw [if_pos h0] at hc
        rcases List.mem_append.mp hc with h | h
        · exact hout c h
        · rw [List.mem_singleton] at h
          rw [h]
          exact htemp
  | cons line rest ih =>
      intro out temp hlines hout htemp c hc
      have hline : line.length ≤ 1999 := hlines line (by simp)
      have hrest : ∀ l ∈ rest, l.length ≤ 1999 :=
        fun l hl => hlines l (by simp [hl])
      rw [split_long_loop] at hc
      by_cases hbr : 2000 < temp.length + line.length + 1
      · rw [if_pos hbr] at hc
        refine ih _ _ hrest ?_ ?_ c hc
        · intro d hd
          rcases List.mem_append.mp hd with h | h
          · exact hout d h
          · rw [List.mem_singleton] at h
            rw [h, List.length_dropLast]
            omega
        · rw [List.length_append, List.length_singleton]
          omega
      · rw [if_neg hbr] at hc
        refine ih _ _ hrest hout ?_ c hc
        rw [List.length_append, List.length_append, List.length_singleton]
        omega

/-- On a single line of 2000 characters the function emits a leading
empty chunk and then the whole oversized line. -/
lemma split_long_message_one_line :
    split_long_message (List.replicate 2000 'a') =
      [[], List.replicate 2000 'a' ++ ['\n']] := by
  have hsplit : (List.replicate 2000 'a').splitOn '\n' =
      [List.replicate 2000 'a'] := by
    show List.splitOnP (· == '\n') (List.replicate 2000 'a') =
      [List.replicate 2000 'a']
    exact List.splitOnP_eq_single _ _ (by
      intro x hx
      rw [List.eq_of_mem_replicate hx]
      decide)
  rw [split_long_message, hsplit, split_long_loop]
  rw [if_pos (by rw [List.length_nil, List.length_replicate]; omega)]
  rw [split_long_loop, if_pos (by
    simp only [ne_eq, List.append_eq_nil]
    rintro ⟨-, h⟩
    exact List.cons_ne_nil _ _ h)]
  rfl

lemma join_replicate_singleton_length (n : ℕ) (c : Char) :
    ((List.replicate n [c]).flatten).length = n := by
  induction n with
  | zero => rfl
  | succ m ih => simp [List.replicate_succ, ih]

/-- The later utility `code_block` does keep its output within the 2048
budget (the inline rendering in src/commands.py does not; see the C4
theorem). -/
lemma code_block_length_le (s : List Char) :
    (code_block s 2048).length ≤ 2048 := by
  rw [code_block]
  have hfr1 : "```\n".data.length = 4 := rfl
  have hfr2 : " ...```".data.length = 7 := rfl
  have hfr3 : "```".data.length = 3 := rfl
  by_cases h : 2048 - 7 < (repl3 ['​', '`', '​', '`', '​', '`', '​'] s).length
  · rw [if_pos h]
    rw [List.length_append, List.length_append, List.length_take]
    omega
  · rw [if_neg h]
    rw [List.length_append, List.length_append, List.length_take]
    omega

end PgBot

namespace PgBot

/-! ## Claim theorems -/

/-- C1 (counterexample): on the spec's own test source the normalization
yields "print(1)", not "print(1)\n" — the trailing loop strips the body's
trailing newline together with the wrapper, so the inner code body is not
left otherwise unchanged. -/
theorem fence_normalization_counterexample :
    normalizeSource "  ```py\nprint(1)\n```  " = "print(1)" ∧
    normalizeSource "  ```py\nprint(1)\n```  " ≠ "print(1)\n" := by
  constructor
  · decide
  · decide

/-- C1 (amended): for every source text made of a nonempty leading
wrapper run of space/backtick/newline characters followed by a body that
starts with a non-wrapper character, normalization yields the body with
its maximal trailing run of space/backtick/newline characters (the
trailing wrapper, plus the body's own trailing newlines) removed, then a
leading "py\n" language tag stripped. -/
theorem fence_normalization_amended (w : List Char) (hb : Char)
    (tb : List Char) (hw : ∀ c ∈ w, isStripChar c = true) (hwne : w ≠ [])
    (hhb : isStripChar hb = false) :
    normalize (w ++ hb :: tb) =
      pyStripTag (((hb :: tb).reverse.dropWhile isStripChar).reverse) := by
  rw [normalize]
  rw [scanLead_of_strip w hb tb hw hwne hhb]
  rw [scanTrail_closed]

/-- C1 (witness): the amended theorem applied to the spec's test source,
split as wrapper "  ```", body head letter p, body tail
"y\nprint(1)\n```  "; the right-hand side evaluates to "print(1)". -/
theorem fence_normalization_witness :
    normalize ("  ```".data ++ 'p' :: "y\nprint(1)\n```  ".data) =
      pyStripTag ((('p' :: "y\nprint(1)\n```  ".data).reverse.dropWhile
        isStripChar).reverse) ∧
    pyStripTag ((('p' :: "y\nprint(1)\n```  ".data).reverse.dropWhile
      isStripChar).reverse) = "print(1)".data :=
  ⟨fence_normalization_amended "  ```".data 'p' "y\nprint(1)\n```  ".data
      (by decide) (by decide) (by decide),
    by decide⟩

/-- C2 (confirmed): for every `SandboxResult` the exec handler renders
exactly one of the two outcomes — an exception embed is sent exactly when
`exc` is present, and success content (the returned-text embed, file
upload or size-refusal embed, all of which are non-exception messages) is
sent exactly when `exc` is absent; never both, never neither. -/
theorem exec_renders_exactly_one_outcome (r : SandboxResult) (start : ℚ) :
    ((userCommandExec r start true).sent.any isExcEmbed = r.exc.isSome) ∧
    ((userCommandExec r start true).sent.any (fun s => !isExcEmbed s) =
      r.exc.isNone) := by
  rcases he : r.exc with _ | e
  · rcases hi : r.img with _ | img
    · simp [userCommandExec, he, hi, isExcEmbed, execTitle_ne]
    · by_cases hsz : img.pngSize < 4194304
      · simp [userCommandExec, he, hi, hsz, isExcEmbed, execTitle_ne]
      · simp [userCommandExec, he, hi, hsz, isExcEmbed, execTitle_ne,
          isFileUpload]
  · simp [userCommandExec, he, isExcEmbed]

/-- C3 (counterexample): an artifact of exactly 2^22 bytes is refused
(the code tests `size < 2**22`), not handed off as a file, contradicting
the claim that exactly 2^22 bytes is handed off. -/
theorem image_size_ceiling_counterexample :
    ((userCommandExec resultAt4MiB 0 true).sent.any isFileUpload = false) ∧
    ((userCommandExec resultAt4MiB 0 true).sent.any isTooLargeEmbed
      = true) := by
  constructor <;> rfl

/-- C3 (amended): a produced artifact strictly smaller than 2^22 bytes
is handed off as a file; an artifact of 2^22 bytes or more (including
exactly 4 MiB) is refused and reported by the normal "Image cannot be
sent" embed, never as an exception outcome. -/
theorem image_size_ceiling_amended (r : SandboxResult) (start : ℚ)
    (img : ImageArtifact) (he : r.exc = none) (hi : r.img = some img) :
    (img.pngSize < 2 ^ 22 →
      (userCommandExec r start true).sent.any isFileUpload = true ∧
      (userCommandExec r start true).sent.any isTooLargeEmbed = false) ∧
    (2 ^ 22 ≤ img.pngSize →
      (userCommandExec r start true).sent.any isFileUpload = false ∧
      (userCommandExec r start true).sent.any isTooLargeEmbed = true ∧
      (userCommandExec r start true).sent.any isExcEmbed = false) := by
  by_cases hsz : img.pngSize < 4194304
  · constructor
    · intro _
      simp [userCommandExec, he, hi, hsz, isFileUpload, isTooLargeEmbed,
        execTitle_ne_I]
    · intro hge
      exact absurd hsz (by omega)
  · constructor
    · intro hlt
      exact absurd hlt (by omega)
    · intro _
      simp [userCommandExec, he, hi, hsz, isFileUpload, isTooLargeEmbed,
        isExcEmbed, execTitle_ne_I, execTitle_ne]

/-- C3 (witness): the amended theorem at the boundary artifact of
exactly 2^22 bytes — refused, reported by the non-error embed. -/
theorem image_size_ceiling_witness :
    resultAt4MiB.exc = none ∧ resultAt4MiB.img = some ⟨2 ^ 22⟩ ∧
    (2 ^ 22 ≤ (⟨2 ^ 22⟩ : ImageArtifact).pngSize →
      (userCommandExec resultAt4MiB 0 true).sent.any isFileUpload = false ∧
      (userCommandExec resultAt4MiB 0 true).sent.any isTooLargeEmbed = true ∧
      (userCommandExec resultAt4MiB 0 true).sent.any isExcEmbed = false) :=
  ⟨rfl, rfl,
    (image_size_ceiling_amended resultAt4MiB 0 ⟨2 ^ 22⟩ rfl rfl).2⟩

/-- C4 (code bug): a successful result text of 2,042 characters renders
to a 2,049-character code block — the truncating branch keeps 2038
characters and adds an 11-character frame (4 + " ..." + 3), exceeding
the 2,048 budget its own guard (`len + 7 > 2048`) and the later
`code_block` utility enforce. -/
theorem text_block_exceeds_render_limit :
    (embedBlock (List.replicate 2042 'a')).length = 2049 := by
  rw [embedBlock, if_pos (by rw [List.length_replicate]; omega)]
  rw [List.length_append, List.length_append, List.length_take,
    List.length_replicate]
  rfl

/-- C5 (confirmed): for every input string, the sanitization used for
result text and the one used for exception content each produce output
with no occurrence of three consecutive backticks. -/
theorem sanitization_removes_all_fences (s : List Char) :
    ¬ ['`', '`', '`'] <:+: sanitizeText s ∧
    ¬ ['`', '`', '`'] <:+: sanitizeExc s :=
  ⟨sanitizeText_noTriple s, sanitizeExc_noTriple s⟩

/-- C6 (confirmed): the rendered error line is the sanitized error-kind
name, then ": ", then the sanitized comma-space join of the argument
strings in their original order — and the whole line contains no
three-backtick fence. -/
theorem exception_line_format (e : ExcInfo) :
    renderExcLine e =
      sanitizeExc e.kindName ++ ": ".data ++
        sanitizeExc (List.intercalate ", ".data e.args) ∧
    ¬ ['`', '`', '`'] <:+: renderExcLine e := by
  refine ⟨rfl, ?_⟩
  rw [← hasTriple_iff_infix]
  rw [renderExcLine, List.append_assoc]
  rw [hasTriple_append_right _ _ (by rfl)]
  rw [hasTriple_append_left ": ".data _ (by decide)]
  simp only [sanitizeExc]
  rw [(repl3_spec replExc replExc_ok.1 replExc_ok.2.1 replExc_ok.2.2
    e.kindName).1]
  rw [(repl3_spec replExc replExc_ok.1 replExc_ok.2.1 replExc_ok.2.2
    (", ".data.intercalate e.args)).1]
  decide

/-- C7 (counterexample): with a small artifact and a failing channel
send, the temporary file is saved but never removed — the handler has no
try/finally, so the claim that the file is removed on every exit path,
including a failing send, is false. -/
theorem temp_file_cleanup_counterexample :
    ((userCommandExec resultSmallImg 0 false).fileSaved = true) ∧
    ((userCommandExec resultSmallImg 0 false).fileRemoved = false) := by
  constructor <;> rfl

/-- C7 (amended): the temporary file, named from the invocation's start
stamp, is removed on every path on which the handler does not raise
(file sent, or refused as too large); when the channel send raises, the
exception propagates and the file is left on disk. -/
theorem temp_file_cleanup_amended (r : SandboxResult) (start : ℚ)
    (sendOk : Bool) (img : ImageArtifact)
    (he : r.exc = none) (hi : r.img = some img) :
    ((sendOk = true ∨ 2 ^ 22 ≤ img.pngSize) →
      (userCommandExec r start sendOk).fileRemoved = true ∧
      (userCommandExec r start sendOk).raised = false) ∧
    ((sendOk = false ∧ img.pngSize < 2 ^ 22) →
      (userCommandExec r start sendOk).fileRemoved = false ∧
      (userCommandExec r start sendOk).raised = true) ∧
    (img.pngSize < 2 ^ 22 ∧ sendOk = true →
      (userCommandExec r start sendOk).sent.head? =
        some (.file (tempName start))) := by
  by_cases hsz : img.pngSize < 4194304
  · cases sendOk
    · refine ⟨?_, ?_, ?_⟩
      · rintro (h | h)
        · exact absurd h (by simp)
        · exact absurd hsz (by omega)
      · intro _
        simp [userCommandExec, he, hi, hsz]
      · rintro ⟨-, h⟩
        exact absurd h (by simp)
    · refine ⟨?_, ?_, ?_⟩
      · intro _
        simp [userCommandExec, he, hi, hsz]
      · rintro ⟨h, -⟩
        exact absurd h (by simp)
      · intro _
        simp [userCommandExec, he, hi, hsz]
  · refine ⟨?_, ?_, ?_⟩
    · intro _
      cases sendOk <;> simp [userCommandExec, he, hi, hsz]
    · rintro ⟨-, h⟩
      exact absurd h (by omega)
    · rintro ⟨h, -⟩
      exact absurd h (by omega)

/-- C7 (witness): the amended theorem on a successful send of a small
artifact — the file is removed and nothing raises. -/
theorem temp_file_cleanup_witness :
    resultSmallImg.exc = none ∧ resultSmallImg.img = some ⟨100⟩ ∧
    ((userCommandExec resultSmallImg 0 true).fileRemoved = true ∧
      (userCommandExec resultSmallImg 0 true).raised = false) :=
  ⟨rfl, rfl,
    (temp_file_cleanup_amended resultSmallImg 0 true ⟨100⟩ rfl rfl).1
      (Or.inl rfl)⟩

/-- C8 (counterexample): a message that is a single line of 2000
characters produces a chunk of 2001 characters (the line plus an
appended newline) — the function never breaks within a line, so the
claimed bound fails exactly on over-long lines. -/
theorem split_long_message_counterexample :
    List.replicate 2000 'a' ++ ['\n'] ∈
      split_long_message (List.replicate 2000 'a') ∧
    2000 < (List.replicate 2000 'a' ++ ['\n']).length := by
  constructor
  · rw [split_long_message_one_line]
    exact List.mem_cons_of_mem _ (List.mem_singleton_self _)
  · rw [List.length_append, List.length_replicate]
    norm_num

/-- C8 (amended): provided every newline-separated line of the message
has length at most 1999 (so a line plus its newline fits in 2000),
every chunk returned by split_long_message has length at most 2000. -/
theorem split_long_message_bound_amended (message : List Char)
    (h : ∀ l ∈ message.splitOn '\n', l.length ≤ 1999) :
    ∀ c ∈ split_long_message message, c.length ≤ 2000 := by
  rw [split_long_message]
  exact split_long_loop_bounded _ _ _ h (by simp) (by simp)

/-- C8 (witness): the amended theorem on the two-line message
"hi\nbye". -/
theorem split_long_message_bound_witness :
    (∀ l ∈ ("hi\nbye".data).splitOn '\n', l.length ≤ 1999) ∧
    (∀ c ∈ split_long_message "hi\nbye".data, c.length ≤ 2000) :=
  ⟨by decide, split_long_message_bound_amended "hi\nbye".data (by decide)⟩

/-- C9 (confirmed): for every percentage (clamped into the unit
interval, values below 0 and above 1 included) and every division count,
progress_bar with its default single-character glyphs returns a string
of length exactly `divisions`. -/
theorem progress_bar_length_eq_divisions (pct : ℚ) (d : ℕ) :
    (progress_bar pct ['█'] ['░'] d).length = d := by
  rw [progress_bar]
  have hp : (0 : ℚ) ≤ (if pct < 0 then 0 else if 1 < pct then 1 else pct) ∧
      (if pct < 0 then 0 else if 1 < pct then 1 else pct) ≤ 1 := by
    split_ifs with h1 h2
    · exact ⟨le_refl 0, by norm_num⟩
    · exact ⟨by norm_num, le_refl 1⟩
    · exact ⟨le_of_not_lt h1, le_of_not_lt h2⟩
  have hmul : (d : ℚ) * (if pct < 0 then 0 else if 1 < pct then 1 else pct)
      ≤ (d : ℚ) :=
    mul_le_of_le_one_right (by positivity) hp.2
  have hfl : Int.toNat ⌊(d : ℚ) *
      (if pct < 0 then 0 else if 1 < pct then 1 else pct)⌋ ≤ d := by
    have h2 : ⌊(d : ℚ) * (if pct < 0 then 0 else if 1 < pct then 1 else pct)⌋
        ≤ (d : ℤ) := by
      calc ⌊(d : ℚ) * _⌋ ≤ ⌊(d : ℚ)⌋ := Int.floor_le_floor hmul
        _ = (d : ℤ) := Int.floor_natCast d
    omega
  rw [List.length_append, join_replicate_singleton_length,
    join_replicate_singleton_length]
  omega

/-- C10 (code bug): on "a:b:c" the two-or-more-colons branch is taken,
the slice after the last colon minus its final character is empty, and
the unguarded `int("")` raises an uncaught ValueError — the function
does not return the input string as its docstring and the claim say. -/
theorem filter_emoji_id_raises_on_two_colons :
    filter_emoji_id "a:b:c".data = .raised := by decide

end PgBot
